import Mathlib

/-!
# Metagetter: delta resolution, classification, manifest, queries and row values

A shallow embedding of the parts of `metagetter.go` that decide the
incremental-extraction behaviour, followed by theorems about them.

Conventions of the embedding:

* `Time` is a Go `time.Time`: the wall-clock reading in the value's own
  location (year, month, day, clock, nanoseconds) and the offset of that
  location from UTC.  A `Location` is reduced to the days on which its clocks
  jump over midnight, which is all that the date of `AddDate` depends on.
* The Go standard library is modelled by its documented behaviour
  (`time.Parse`, `Time.Format`, `Time.AddDate`, `strings.ToUpper`,
  `log.Fatal`), restricted to the layouts the program uses.
* Years are unbounded integers; Go strings are lists of characters.
* `strings.ToUpper` is a parameter `upper` of the classifier, so that what is
  proved of the classifier holds for the function of the library;
  `ToUpperASCII` evaluates it on ASCII text in the examples.
* Loops that the source writes as `for { ... }` take a fuel argument and
  return `none` when the fuel runs out before the loop exits.
* Results of the database and of the CSV reader are inputs of the functions
  that consume them; a manifest is the list of its records.  A `float64` is
  its IEEE 754 bit pattern, and its `%.2f` text is computed exactly.
-/

namespace Metagetter

/-! ## The calendar of package `time` -/

/-- A Go `time.Time`: the wall-clock reading in the value's location and the
offset of that location from UTC at that instant, in seconds east of UTC. -/
structure Time where
  year : Int
  month : Nat
  day : Nat
  hour : Nat
  min : Nat
  sec : Nat
  nsec : Nat
  offset : Int
deriving DecidableEq, Repr

/-- The zero value `time.Time{}`: January 1, year 1, 00:00:00 UTC. -/
def zeroTime : Time := ⟨1, 1, 1, 0, 0, 0, 0, 0⟩

/-- Go `isLeap`. -/
def isLeap (year : Int) : Bool :=
  year % 4 == 0 && (year % 100 != 0 || year % 400 == 0)

/-- Go `daysBefore`: days in a non-leap year before the end of month `m`. -/
def daysBefore : List Nat := [0, 31, 59, 90, 120, 151, 181, 212, 243, 273, 304, 334, 365]

/-- Go `daysIn`. -/
def daysIn (m : Nat) (year : Int) : Nat :=
  if m = 2 ∧ isLeap year = true then 29
  else daysBefore.getD m 0 - daysBefore.getD (m - 1) 0

/-- A reading whose date part names a day of the proleptic Gregorian calendar. -/
def validDate (t : Time) : Prop :=
  1 ≤ t.month ∧ t.month ≤ 12 ∧ 1 ≤ t.day ∧ t.day ≤ daysIn t.month t.year

instance (t : Time) : Decidable (validDate t) := by
  unfold validDate; infer_instance

/-- The same clock reading one calendar day earlier. -/
def prevDay (t : Time) : Time :=
  if 1 < t.day then { t with day := t.day - 1 }
  else if 1 < t.month then { t with month := t.month - 1, day := daysIn (t.month - 1) t.year }
  else { t with year := t.year - 1, month := 12, day := 31 }

/-- The same clock reading one calendar day later. -/
def nextDay (t : Time) : Time :=
  if t.day < daysIn t.month t.year then { t with day := t.day + 1 }
  else if t.month < 12 then { t with month := t.month + 1, day := 1 }
  else { t with year := t.year + 1, month := 1, day := 1 }

/-- The same clock reading `days` calendar days later (earlier when `days` is
negative): how Go `Date` normalises a day number outside the month. -/
def addDays (t : Time) (days : Int) : Time :=
  if 0 ≤ days then nextDay^[days.toNat] t else prevDay^[(-days).toNat] t

/-- Go `t.UTC()`: the reading of the same instant in UTC. -/
def Time.UTC (t : Time) : Time :=
  let total : Int := ((t.hour * 3600 + t.min * 60 + t.sec : Nat) : Int) - t.offset
  let clock : Nat := (total % 86400).toNat
  addDays { t with hour := clock / 3600, min := clock % 3600 / 60, sec := clock % 60,
                   offset := 0 } (total / 86400)

/-- Go `Time.IsZero`: the instant is January 1, year 1, 00:00:00 UTC. -/
def Time.IsZero (t : Time) : Bool := decide (t.UTC = zeroTime)

/-- A Go `*time.Location`, reduced to what `Date` needs at the clock reading
it is asked for: the days on which the clocks of a zone west of UTC jump from
00:00 to 01:00.  Other transitions leave the date of the resolved reading
alone (a reading inside a gap east of UTC resolves forward on the same day). -/
structure Location where
  midnightGaps : List (Int × Nat × Nat)
deriving DecidableEq, Repr

/-- Go `time.UTC`; any location whose clocks never jump at midnight resolves
readings the same way. -/
def UTC : Location := ⟨[]⟩

/-- America/Sao_Paulo in 2018: on 4 November the clocks went from 00:00
(UTC-3) straight to 01:00 (UTC-2). -/
def saoPaulo2018 : Location := ⟨[(2018, 11, 4)]⟩

/-- The zone resolution of Go `Date(..., loc)` on a normalised reading.  For a
reading inside a midnight gap west of UTC, `Date` looks the zone up at the
reading taken as UTC (still the old offset), moves to the instant that offset
gives (past the transition), looks the zone up again (new offset) and
subtracts it: the instant lies one hour before the transition and reads as
23:00 of the previous day. -/
def Location.Date (loc : Location) (t : Time) : Time :=
  if t.hour = 0 ∧ (t.year, t.month, t.day) ∈ loc.midnightGaps then
    { prevDay t with hour := 23 }
  else t

/-- Go `t.AddDate(0, 0, days)`: `Date(year, month, day+days, hour, min, sec,
nsec, loc)` with the fields of `t`.  The offset of the result is not tracked
(it stays that of `t`); `findPreviousDelta` reads the date of the result
alone. -/
def AddDate (t : Time) (days : Int) (loc : Location := UTC) : Time :=
  loc.Date (addDays t days)

/-- Calendar order on the date parts: `a` is a day strictly before `b`. -/
def dateBefore (a b : Time) : Prop :=
  a.year < b.year ∨ (a.year = b.year ∧ (a.month < b.month ∨ (a.month = b.month ∧ a.day < b.day)))

instance (a b : Time) : Decidable (dateBefore a b) := by
  unfold dateBefore; infer_instance

/-! ## Decimal text -/

/-- Go `isDigit` on one byte. -/
def isDigit (c : Char) : Bool := decide (48 ≤ c.toNat ∧ c.toNat ≤ 57)

/-- Value of a decimal digit. -/
def digitVal (c : Char) : Nat := c.toNat - 48

/-- The digit `byte(48 + u)`. -/
def digitChar (u : Nat) : Char := Char.ofNat (48 + u)

/-- The digit loop of Go `appendInt`: decimal text of `u`, assembled from the
last digit backwards in front of `acc`. -/
def digitsAux : Nat → Nat → List Char → List Char
  | 0, u, acc => digitChar u :: acc
  | fuel + 1, u, acc =>
    if 10 ≤ u then digitsAux fuel (u / 10) (digitChar (u % 10) :: acc)
    else digitChar u :: acc

/-- Go `appendInt(b, x, width)`: sign, zero padding up to `width`, digits
(the digit buffer of the source holds 20 bytes). -/
def appendInt (x : Int) (width : Nat) : List Char :=
  let digits := digitsAux 20 x.natAbs []
  (if x < 0 then ['-'] else []) ++
    List.replicate (width - digits.length) (digitChar 0) ++ digits

/-! ## `time.Parse` and `Time.Format` for the layout `2006_01_02` -/

/-- Go `time.Parse("2006_01_02", value)` on the characters of `value`: a
four-digit year, `_`, a two-digit month in 1..12, `_`, a two-digit day that
exists in that month, and nothing after it. -/
def parseDateChars : List Char → Option Time
  | [y1, y2, y3, y4, u1, m1, m2, u2, d1, d2] =>
    if isDigit y1 && isDigit y2 && isDigit y3 && isDigit y4 && u1 == '_'
        && isDigit m1 && isDigit m2 && u2 == '_' && isDigit d1 && isDigit d2 then
      let year : Nat := 1000 * digitVal y1 + 100 * digitVal y2 + 10 * digitVal y3 + digitVal y4
      let month := 10 * digitVal m1 + digitVal m2
      let day := 10 * digitVal d1 + digitVal d2
      if month < 1 ∨ 12 < month then none
      else if day < 1 ∨ daysIn month year < day then none
      else some ⟨year, month, day, 0, 0, 0, 0, 0⟩
    else none
  | _ => none

/-- Go `time.Parse("2006_01_02", value)`; `none` stands for a non-nil error. -/
def ParseDate (value : String) : Option Time := parseDateChars value.data

/-- Characters of Go `t.Format("2006_01_02")`. -/
def formatDateChars (t : Time) : List Char :=
  appendInt t.year 4 ++ ['_'] ++ appendInt t.month 2 ++ ['_'] ++ appendInt t.day 2

/-- Go `t.Format("2006_01_02")`. -/
def FormatDate (t : Time) : String := String.mk (formatDateChars t)

/-! ## `findPreviousDelta` -/

/-- The comparison of `findPreviousDelta`: equal `Year()`, `Month()`, `Day()`. -/
def sameDate (a b : Time) : Bool :=
  a.year == b.year && a.month == b.month && a.day == b.day

/-- The inner `for _, date := range dates` loop of `findPreviousDelta`, on
the state `(folder, breakout)`. -/
def innerLoop (target : Time) : List Time → Time × Bool → Time × Bool
  | [], st => st
  | date :: rest, (folder, breakout) =>
    if breakout then (folder, breakout)
    else if sameDate target date then innerLoop target rest (date, true)
    else innerLoop target rest (folder, breakout)

/-- The outer `for { ... }` loop of `findPreviousDelta` from day offset `i`:
`some folder` once `breakout` is set, `none` when `fuel` rounds did not set it.
`loc` is the location of `now`. -/
def scanLoop (now : Time) (dates : List Time) (fuel : Nat) (i : Int) (folder : Time)
    (loc : Location := UTC) : Option Time :=
  match fuel with
  | 0 => none
  | fuel + 1 =>
    match innerLoop (AddDate now i loc) dates (folder, false) with
    | (found, true) => some found
    | (kept, false) => scanLoop now dates fuel (i - 1) kept loc

/-- The dates of the directory entries: `date, _ := time.Parse(...)` keeps the
zero `Time` that `time.Parse` returns with an error. -/
def folderDates (folders : List String) : List Time :=
  folders.map (fun item => (ParseDate item).getD zeroTime)

/-- `findPreviousDelta(path)`, given the entry names `folders` that
`ioutil.ReadDir(path)` returns (none when the directory is unreadable), the
reading `now` of `time.Now()` and the local location `loc`.  `none` means the
scan is still running after `fuel` rounds. -/
def findPreviousDelta (folders : List String) (now : Time) (fuel : Nat)
    (loc : Location := UTC) : Option String :=
  if folders.length = 0 then some ""
  else (scanLoop now (folderDates folders) fuel (-1) zeroTime loc).map FormatDate

/-! ## Text helpers of the standard library -/

/-- Go `strings.ToUpper` on ASCII text: it agrees with the library function on
every string of ASCII characters, and stands for it in the examples only. -/
def ToUpperASCII (s : String) : String := String.mk (s.data.map Char.toUpper)

/-- The zone field `Z07:00` of Go `Time.Format`: `Z` for offset zero, else
the sign and the offset in hours and minutes (Go integer division truncates
towards zero). -/
def formatZone (offset : Int) : List Char :=
  if offset = 0 then ['Z']
  else
    let zone : Int := Int.tdiv offset 60
    (if zone < 0 then ['-'] else ['+'])
      ++ appendInt ((zone.natAbs / 60 : Nat) : Int) 2 ++ [':']
      ++ appendInt ((zone.natAbs % 60 : Nat) : Int) 2

/-- Go `t.Format(time.RFC3339)`, layout `2006-01-02T15:04:05Z07:00`; the
layout has no fractional seconds, so `nsec` is not written. -/
def FormatRFC3339 (t : Time) : String :=
  String.mk (appendInt t.year 4 ++ ['-'] ++ appendInt t.month 2 ++ ['-'] ++ appendInt t.day 2
    ++ ['T'] ++ appendInt t.hour 2 ++ [':'] ++ appendInt t.min 2 ++ [':'] ++ appendInt t.sec 2
    ++ formatZone t.offset)

/-! ## Tables and configuration (`models.go`) -/

/-- The `String` parts of the `sql.NullString` fields of `Column` that the
export path reads. -/
structure Column where
  name : String
  dataType : String
deriving DecidableEq, Repr

/-- Go `Table`. -/
structure Table where
  name : String
  rowCount : Int
  folder : String
  «where» : String
  timestamp : String
  type2 : Bool
  columns : List Column
deriving DecidableEq, Repr

/-- The two name sets of `Config` that the classifier reads. -/
structure Config where
  Type2 : List String
  Timestamps : List String
deriving Repr

/-- The table that `getTableMetadata` returns for the metadata rows `rows`
of table `tableName`; all other fields hold their zero values. -/
def getTableMetadata (tableName : String) (rows : List Column) : Table :=
  { name := tableName, rowCount := 0, folder := "", «where» := "", timestamp := "",
    type2 := false, columns := rows }

/-- One round of the metadata loop of `main`: the table as it enters the
classifier, with row count `count` and the run folder `base`. -/
def loadTable (tableName : String) (rows : List Column) (count : Int) (base : String) : Table :=
  { getTableMetadata tableName rows with rowCount := count, folder := base ++ "tables" }

/-! ## The table classifier (`main`, type-2 and timestamp loops) -/

/-- The loop `for _, type2 := range config.Type2` on the flag of one table;
`upper` stands for `strings.ToUpper`. -/
def type2Loop (upper : String → String) (name : String) : List String → Bool → Bool
  | [], flag => flag
  | type2 :: rest, flag =>
    if upper name = type2 then type2Loop upper name rest true
    else type2Loop upper name rest flag

/-- The type-2 pass of `main` on one table. -/
def markType2 (upper : String → String) (config : Config) (table : Table) : Table :=
  { table with type2 := type2Loop upper table.name config.Type2 table.type2 }

/-- The loop `for _, timestamp := range config.Timestamps` for one column, on
the `timestamp` field of the table. -/
def timestampEntryLoop (upper : String → String) (columnName : String) :
    List String → String → String
  | [], current => current
  | timestamp :: rest, current =>
    if upper columnName = timestamp then
      timestampEntryLoop upper columnName rest (upper columnName)
    else timestampEntryLoop upper columnName rest current

/-- The loop `for _, column := range table.columns` on the `timestamp` field. -/
def timestampColumnLoop (upper : String → String) (timestamps : List String) :
    List Column → String → String
  | [], current => current
  | column :: rest, current =>
    timestampColumnLoop upper timestamps rest
      (timestampEntryLoop upper column.name timestamps current)

/-- The timestamp pass of `main` on one table: skipped for a type-2 table. -/
def markTimestamp (upper : String → String) (config : Config) (table : Table) : Table :=
  if !table.type2 then
    { table with
      timestamp := timestampColumnLoop upper config.Timestamps table.columns table.timestamp }
  else table

/-- Both classifier passes of `main` over the table container. -/
def classify (upper : String → String) (config : Config) (tableContainer : List Table) :
    List Table :=
  (tableContainer.map (markType2 upper config)).map (markTimestamp upper config)

/-- Case-insensitive equality of two names, as the specification words it:
equal once upper-cased. -/
def equalFold (upper : String → String) (a b : String) : Prop := upper a = upper b

instance (upper : String → String) (a b : String) : Decidable (equalFold upper a b) := by
  unfold equalFold; infer_instance

/-- The last column, in ordinal order, whose name equals an entry of the
delta-eligible set case-insensitively (the wording of the specification). -/
def lastMatchingColumn (upper : String → String) (timestamps : List String)
    (columns : List Column) : Option Column :=
  (columns.filter (fun c => decide (∃ e ∈ timestamps, equalFold upper c.name e))).getLast?

/-! ## The dispatch loop of `main` -/

/-- Go `map[string]time.Time`, latest assignment first. -/
abbrev DeltaMap := List (String × Time)

/-- Go `deltaMap[name]`: the zero `Time` when the key is absent. -/
def DeltaMap.get (deltaMap : DeltaMap) (name : String) : Time :=
  (deltaMap.lookup name).getD zeroTime

/-- One round of the dispatch loop of `main`: the table sent on
`inputChannel`, or `none` for a table with `rowCount <= 0`. -/
def dispatch (deltaMap : DeltaMap) (table : Table) : Option Table :=
  if table.rowCount > 0 then
    let deltaTime := deltaMap.get table.name
    if deltaTime.IsZero || table.type2 then some { table with «where» := "" }
    else some { table with «where» := FormatRFC3339 deltaTime }
  else none

/-! ## The row streamer (`getTableData`) -/

/-- The projection term of one column. -/
def columnTerm (column : Column) : String :=
  if column.dataType = "image" then "'\x7bimg\x7d' as [" ++ column.name ++ "]"
  else "[" ++ column.name ++ "]"

/-- The loop `for index, column := range table.columns` on `columnList`. -/
def columnListLoop : List Column → Nat → String → String
  | [], _, columnList => columnList
  | column :: rest, index, columnList =>
    if index = 0 then columnListLoop rest (index + 1) (columnList ++ columnTerm column)
    else columnListLoop rest (index + 1) (columnList ++ ("," ++ columnTerm column))

/-- The local `where` of `getTableData`. -/
def whereClause (table : Table) : String :=
  if table.«where» ≠ "" then "WHERE " ++ table.timestamp ++ " >= '" ++ table.«where» ++ "'"
  else ""

/-- The `queryString` of `getTableData`. -/
def queryString (table : Table) : String :=
  "SELECT " ++ columnListLoop table.columns 0 "" ++ " FROM [" ++ table.name ++ "] "
    ++ whereClause table

/-- Results of the fallible calls `getTableData` makes for one table
(`sql.Open` in `databaseConnectionFactory`, `Query`, `os.Create`,
`gzip.NewWriterLevel`, `Scan` per row): `true` stands for a non-nil `err`. -/
structure ExportErrors where
  openErr : Bool
  queryErr : Bool
  createErr : Bool
  gzipErr : Bool
  scanErrs : List Bool
deriving DecidableEq, Repr

/-- How control leaves a piece of `getTableData`. -/
inductive Flow where
  | next
  | exit
deriving DecidableEq, Repr

/-- The row loop `for query.Next()`: `log.Fatal` on a `Scan` error. -/
def rowLoop : List Bool → Flow
  | [] => Flow.next
  | scanErr :: rest => if scanErr then Flow.exit else rowLoop rest

/-- The body of the worker loop for one table.  `log.Fatal` writes the error
and calls `os.Exit(1)`, so the `break` after it is never reached. -/
def exportTable (errs : ExportErrors) : Flow :=
  if errs.openErr then Flow.exit
  else if errs.queryErr then Flow.exit
  else if errs.createErr then Flow.exit
  else if errs.gzipErr then Flow.exit
  else rowLoop errs.scanErrs

/-- The worker `getTableData` on the tables it receives from the channel:
the tables it exported, and `Flow.next` when it reached `waitGroup.Done()`
or `Flow.exit` when it ended the process. -/
def getTableData : List (Table × ExportErrors) → List String × Flow
  | [] => ([], Flow.next)
  | (table, errs) :: rest =>
    match exportTable errs with
    | Flow.exit => ([], Flow.exit)
    | Flow.next =>
      let (exported, flow) := getTableData rest
      (table.name :: exported, flow)

/-- The end of `main`: `waitGroup.Wait()` returns and the elapsed time is
printed only when no worker ended the process. -/
def reachesReport (workers : List (List (Table × ExportErrors))) : Bool :=
  workers.all (fun received => (getTableData received).2 == Flow.next)

/-! ## `time.Parse` for the layout `time.RFC3339` -/

/-- Go `atoi` on the four bytes of a `2006` field: four decimal digits. -/
def atoi4 : List Char → Option (Nat × List Char)
  | c1 :: c2 :: c3 :: c4 :: rest =>
    if isDigit c1 && isDigit c2 && isDigit c3 && isDigit c4 then
      some (1000 * digitVal c1 + 100 * digitVal c2 + 10 * digitVal c3 + digitVal c4, rest)
    else none
  | _ => none

/-- Go `getnum(s, fixed)`: one or two leading digits, two when `fixed`. -/
def getnum (s : List Char) (fixed : Bool) : Option (Nat × List Char) :=
  match s with
  | [] => none
  | c1 :: rest =>
    if isDigit c1 then
      match rest with
      | [] => if fixed then none else some (digitVal c1, [])
      | c2 :: rest2 =>
        if isDigit c2 then some (10 * digitVal c1 + digitVal c2, rest2)
        else if fixed then none else some (digitVal c1, c2 :: rest2)
    else none

/-- Go `skip(value, prefix)` for a one-byte literal prefix. -/
def skip (c : Char) : List Char → Option (List Char)
  | [] => none
  | x :: rest => if x = c then some rest else none

/-- Decimal value of a run of digits, continuing from `acc`. -/
def digitsValue (l : List Char) (acc : Nat) : Nat :=
  l.foldl (fun a c => 10 * a + digitVal c) acc

/-- Fractional seconds that `time.Parse` accepts after the seconds field of
a layout without them: a period or comma and digits, of which the first nine
count (Go `parseNanoseconds`). -/
def parseFraction (value : List Char) : Nat × List Char :=
  match value with
  | c0 :: c1 :: rest =>
    if (c0 = '.' ∨ c0 = ',') ∧ isDigit c1 = true then
      let digits := (c1 :: rest.takeWhile isDigit).take 9
      (digitsValue digits 0 * 10 ^ (9 - digits.length), rest.dropWhile isDigit)
    else (0, value)
  | _ => (0, value)

/-- The zone field `Z07:00` of Go `time.Parse`: `Z` for UTC, or a signed
`hh:mm` offset; the offset in seconds and the text after the field. -/
def parseZone : List Char → Option (Int × List Char)
  | [] => none
  | c :: rest =>
    if c = 'Z' then some (0, rest)
    else
      match rest with
      | h1 :: h2 :: colon :: m1 :: m2 :: rest2 =>
        if colon = ':' ∧ (isDigit h1 && isDigit h2 && isDigit m1 && isDigit m2) = true
            ∧ (c = '+' ∨ c = '-')
            ∧ 10 * digitVal h1 + digitVal h2 ≤ 24 ∧ 10 * digitVal m1 + digitVal m2 ≤ 60 then
          let seconds : Nat :=
            ((10 * digitVal h1 + digitVal h2) * 60 + (10 * digitVal m1 + digitVal m2)) * 60
          some (if c = '-' then -(seconds : Int) else (seconds : Int), rest2)
        else none
      | _ => none

/-- Go `time.Parse(time.RFC3339, value)` on the characters of `value`, field
by field as the layout `2006-01-02T15:04:05Z07:00` is read: the wall-clock
reading as written, with the offset of the zone field. -/
def parseRFC3339Chars (value : List Char) : Option Time :=
  (atoi4 value).bind fun year =>
  (skip '-' year.2).bind fun v1 =>
  (getnum v1 true).bind fun month =>
  if month.1 < 1 ∨ 12 < month.1 then none else
  (skip '-' month.2).bind fun v2 =>
  (getnum v2 true).bind fun day =>
  (skip 'T' day.2).bind fun v3 =>
  (getnum v3 false).bind fun hour =>
  if 24 ≤ hour.1 then none else
  (skip ':' hour.2).bind fun v4 =>
  (getnum v4 true).bind fun min =>
  if 60 ≤ min.1 then none else
  (skip ':' min.2).bind fun v5 =>
  (getnum v5 true).bind fun sec =>
  if 60 ≤ sec.1 then none else
  (parseZone (parseFraction sec.2).2).bind fun zone =>
  if zone.2 ≠ [] then none else
  if day.1 < 1 ∨ daysIn month.1 year.1 < day.1 then none else
  some ⟨year.1, month.1, day.1, hour.1, min.1, sec.1, (parseFraction sec.2).1, zone.1⟩

/-- Go `time.Parse(time.RFC3339, value)`; `none` stands for a non-nil error. -/
def ParseRFC3339 (value : String) : Option Time := parseRFC3339Chars value.data

/-! ## Decimal integers of package `strconv` -/

/-- Go `strconv.Itoa`, and `fmt.Sprintf("%v", v)` on a signed integer: sign
and decimal digits. -/
def Itoa (i : Int) : String :=
  String.mk ((if i < 0 then ['-'] else []) ++ digitsAux 20 i.natAbs [])

/-! ## `fmt.Sprintf("%.2f", v)` -/

/-- The header row of `delta.csv`. -/
def deltaHeader : List String := ["TABLE_NAME", "COLUMN_NAME", "MAX_TIMESTAMP", "TOTAL_RECORDS"]

/-- The record `writeDeltas` writes for `table` with the maximum `timestamp`. -/
def deltaRow (table : Table) (timestamp : Time) : List String :=
  [table.name, table.timestamp, FormatRFC3339 timestamp, Itoa table.rowCount]

/-- The table loop of `writeDeltas`, on the records written so far;
`getMaxTimestamp name column` stands for the summary query. -/
def writeDeltasLoop (getMaxTimestamp : String → String → Time) :
    List Table → List (List String) → List (List String)
  | [], written => written
  | table :: rest, written =>
    if table.rowCount = 0 then writeDeltasLoop getMaxTimestamp rest written
    else if table.timestamp ≠ "" then
      let timestamp := getMaxTimestamp table.name table.timestamp
      if timestamp.IsZero then writeDeltasLoop getMaxTimestamp rest written
      else writeDeltasLoop getMaxTimestamp rest (written ++ [deltaRow table timestamp])
    else writeDeltasLoop getMaxTimestamp rest written

/-- The records of the manifest that `writeDeltas` writes. -/
def writeDeltas (getMaxTimestamp : String → String → Time) (tables : List Table) :
    List (List String) :=
  writeDeltasLoop getMaxTimestamp tables [deltaHeader]

/-- What one call of `reader.Read()` returns before `io.EOF`: the record (the
empty list stands for a nil slice) and whether `err` is non-nil. -/
structure ReadResult where
  row : List String
  err : Bool
deriving DecidableEq, Repr

/-- The manifest loop of `main` over the results of `reader.Read()`, `io.EOF`
following the last of them, on the map and the number of logged errors.  A
non-nil `err` is logged and the loop goes on to `row[2]`; `none` stands for
the run-time panic of an index out of range. -/
def loadDeltaMap : List ReadResult → DeltaMap × Nat → Option (DeltaMap × Nat)
  | [], state => some state
  | read :: rest, (deltaMap, logged) =>
    let logged := if read.err then logged + 1 else logged
    match read.row with
    | name :: _ :: field2 :: _ =>
      loadDeltaMap rest ((name, (ParseRFC3339 field2).getD zeroTime) :: deltaMap, logged)
    | _ => none

/-! ## Row values (`getTableData`, the type switch) -/

/-- Linear rank of the date part; it orders valid dates like the calendar. -/
def dateRank (t : Time) : Int := t.year * 372 + ((t.month * 31 + t.day : Nat) : Int)

/-! ## Calendar lemmas -/

theorem daysIn_bounds (m : Nat) (y : Int) (h1 : 1 ≤ m) (h2 : m ≤ 12) :
    28 ≤ daysIn m y ∧ daysIn m y ≤ 31 := by
  unfold daysIn
  interval_cases m <;> simp [daysBefore]
  split <;> omega

theorem validDate_zeroTime : validDate zeroTime := by decide

theorem prevDay_valid (t : Time) (h : validDate t) : validDate (prevDay t) := by
  obtain ⟨h1, h2, h3, h4⟩ := h
  unfold prevDay
  split
  · exact ⟨h1, h2, by simp; omega, by simp; omega⟩
  · split
    · have hb := daysIn_bounds (t.month - 1) t.year (by omega) (by omega)
      exact ⟨by simp; omega, by simp; omega, by simp; omega, by simp⟩
    · exact ⟨by simp, by simp, by simp, by simp [daysIn, daysBefore]⟩

theorem prevDay_rank_lt (t : Time) (h : validDate t) : dateRank (prevDay t) < dateRank t := by
  obtain ⟨h1, h2, h3, h4⟩ := h
  unfold prevDay dateRank
  split
  · simp; omega
  · split
    · have hb := daysIn_bounds (t.month - 1) t.year (by omega) (by omega)
      simp; omega
    · simp; omega

theorem prevDay_no_gap (t m : Time) (ht : validDate t) (hm : validDate m)
    (hlt : dateRank m < dateRank t) : dateRank m ≤ dateRank (prevDay t) := by
  obtain ⟨h1, h2, h3, h4⟩ := ht
  obtain ⟨g1, g2, g3, g4⟩ := hm
  have gb := daysIn_bounds m.month m.year g1 g2
  have hb := daysIn_bounds t.month t.year h1 h2
  unfold prevDay
  unfold dateRank at *
  split
  · simp; omega
  · split
    · have hb2 := daysIn_bounds (t.month - 1) t.year (by omega) (by omega)
      by_cases hy : m.year = t.year
      · by_cases hmm : m.month = t.month - 1
        · rw [hy, hmm] at g4
          simp; omega
        · simp; omega
      · simp; omega
    · simp; omega

theorem iterate_prevDay_valid (t : Time) (h : validDate t) (k : Nat) :
    validDate (prevDay^[k] t) := by
  induction k with
  | zero => simpa using h
  | succ k ih =>
    rw [Function.iterate_succ_apply']
    exact prevDay_valid _ ih

theorem iterate_prevDay_rank_lt (t : Time) (h : validDate t) (j k : Nat) (hjk : j < k) :
    dateRank (prevDay^[k] t) < dateRank (prevDay^[j] t) := by
  induction k with
  | zero => omega
  | succ k ih =>
    rw [Function.iterate_succ_apply']
    have hstep := prevDay_rank_lt _ (iterate_prevDay_valid t h k)
    by_cases hj : j = k
    · subst hj; exact hstep
    · have := ih (by omega); omega

theorem iterate_prevDay_reach (m : Time) (hm : validDate m) (n : Nat) :
    ∀ t, validDate t → dateRank m < dateRank t → dateRank t - dateRank m ≤ (n : Int) →
      ∃ k, 1 ≤ k ∧ k ≤ n ∧ dateRank (prevDay^[k] t) = dateRank m := by
  induction n with
  | zero => intro t _ h1 h2; omega
  | succ n ih =>
    intro t ht hlt hn
    have hgap := prevDay_no_gap t m ht hm hlt
    have hdec := prevDay_rank_lt t ht
    by_cases heq : dateRank m = dateRank (prevDay t)
    · exact ⟨1, le_refl 1, by omega, by simpa using heq.symm⟩
    · obtain ⟨k, hk1, hk2, hk3⟩ := ih (prevDay t) (prevDay_valid t ht) (by omega) (by omega)
      exact ⟨k + 1, by omega, by omega, by rw [Function.iterate_succ_apply]; exact hk3⟩

theorem sameDate_iff (a b : Time) :
    sameDate a b = true ↔ a.year = b.year ∧ a.month = b.month ∧ a.day = b.day := by
  simp [sameDate, and_assoc]

theorem sameDate_of_rank_eq (a b : Time) (ha : validDate a) (hb : validDate b)
    (h : dateRank a = dateRank b) : sameDate a b = true := by
  obtain ⟨h1, h2, h3, h4⟩ := ha
  obtain ⟨g1, g2, g3, g4⟩ := hb
  have gb := daysIn_bounds b.month b.year g1 g2
  have hb := daysIn_bounds a.month a.year h1 h2
  rw [sameDate_iff]
  unfold dateRank at h
  refine ⟨by omega, by omega, by omega⟩

theorem rank_eq_of_sameDate (a b : Time) (h : sameDate a b = true) :
    dateRank a = dateRank b := by
  rw [sameDate_iff] at h
  obtain ⟨h1, h2, h3⟩ := h
  unfold dateRank
  rw [h1, h2, h3]

theorem dateBefore_iff_rank (a b : Time) (ha : validDate a) (hb : validDate b) :
    dateBefore a b ↔ dateRank a < dateRank b := by
  obtain ⟨h1, h2, h3, h4⟩ := ha
  obtain ⟨g1, g2, g3, g4⟩ := hb
  have gb := daysIn_bounds b.month b.year g1 g2
  have hb := daysIn_bounds a.month a.year h1 h2
  unfold dateBefore dateRank
  constructor
  · intro h; omega
  · intro h; omega

/-! ## The loops of `findPreviousDelta` -/

theorem innerLoop_done (target : Time) (l : List Time) (f : Time) :
    innerLoop target l (f, true) = (f, true) := by
  cases l <;> simp [innerLoop]

theorem innerLoop_find (target : Time) (l : List Time) (f : Time) :
    innerLoop target l (f, false) =
      match l.find? (sameDate target) with
      | some d => (d, true)
      | none => (f, false) := by
  induction l with
  | nil => simp [innerLoop]
  | cons d rest ih =>
    by_cases h : sameDate target d = true
    · simp [innerLoop, h, innerLoop_done]
    · simp [innerLoop, h, ih]

theorem scanLoop_hit (now : Time) (dates : List Time) (fuel : Nat) (i : Int) (folder d : Time)
    (h : dates.find? (sameDate (AddDate now i)) = some d) :
    scanLoop now dates (fuel + 1) i folder = some d := by
  simp [scanLoop, innerLoop_find, h]

theorem scanLoop_skip (now : Time) (dates : List Time) (fuel : Nat) (i : Int) (folder : Time)
    (h : ∀ d ∈ dates, sameDate (AddDate now i) d = false) :
    scanLoop now dates (fuel + 1) i folder = scanLoop now dates fuel (i - 1) folder := by
  have hf : dates.find? (sameDate (AddDate now i)) = none := by
    rw [List.find?_eq_none]
    intro d hd
    simp [h d hd]
  simp [scanLoop, innerLoop_find, hf]

theorem scanLoop_reach (now : Time) (dates : List Time) (d : Time) (k : Nat) :
    ∀ (fuel : Nat) (i : Int) (folder : Time),
      (∀ j : Nat, j < k → ∀ x ∈ dates, sameDate (AddDate now (i - j)) x = false) →
      dates.find? (sameDate (AddDate now (i - k))) = some d → k < fuel →
      scanLoop now dates fuel i folder = some d := by
  induction k with
  | zero =>
    intro fuel i folder _ hhit hfuel
    obtain ⟨f, rfl⟩ : ∃ f, fuel = f + 1 := ⟨fuel - 1, by omega⟩
    exact scanLoop_hit now dates f i folder d (by simpa using hhit)
  | succ k ih =>
    intro fuel i folder hskip hhit hfuel
    obtain ⟨f, rfl⟩ : ∃ f, fuel = f + 1 := ⟨fuel - 1, by omega⟩
    rw [scanLoop_skip now dates f i folder (by simpa using hskip 0 (by omega))]
    apply ih f (i - 1) folder
    · intro j hj x hx
      have := hskip (j + 1) (by omega) x hx
      rw [show i - 1 - (j : Int) = i - ((j + 1 : Nat) : Int) by push_cast; ring]
      exact this
    · rw [show i - 1 - (k : Int) = i - ((k + 1 : Nat) : Int) by push_cast; ring]
      exact hhit
    · omega

theorem scanLoop_never (now : Time) (dates : List Time) (fuel : Nat) :
    ∀ (i : Int) (folder : Time),
      (∀ j : Nat, ∀ x ∈ dates, sameDate (AddDate now (i - j)) x = false) →
      scanLoop now dates fuel i folder = none := by
  induction fuel with
  | zero => intro i folder _; rfl
  | succ f ih =>
    intro i folder h
    rw [scanLoop_skip now dates f i folder (by simpa using h 0)]
    apply ih
    intro j x hx
    have := h (j + 1) x hx
    rw [show i - 1 - (j : Int) = i - ((j + 1 : Nat) : Int) by push_cast; ring]
    exact this

theorem AddDate_back (now : Time) (k : Nat) :
    AddDate now (-1 - (k : Int)) = prevDay^[k + 1] now := by
  have h : UTC.Date (addDays now (-1 - (k : Int))) = addDays now (-1 - (k : Int)) := by
    simp [Location.Date, UTC]
  unfold AddDate
  rw [h]
  unfold addDays
  rw [if_neg (by omega)]
  congr 1
  omega

theorem scanLoop_latest (now : Time) (dates : List Time) (m : Time)
    (hnow : validDate now) (hv : ∀ d ∈ dates, validDate d) (hm : m ∈ dates)
    (hlt : dateRank m < dateRank now)
    (hmax : ∀ d ∈ dates, dateRank d < dateRank now → dateRank d ≤ dateRank m) :
    ∃ r, r ∈ dates ∧ sameDate m r = true ∧
      ∀ fuel : Nat, dateRank now - dateRank m ≤ (fuel : Int) →
        scanLoop now dates fuel (-1) zeroTime = some r := by
  obtain ⟨k, hk1, hk2, hk3⟩ := iterate_prevDay_reach m (hv m hm)
    (dateRank now - dateRank m).toNat now hnow hlt (by omega)
  have htv := iterate_prevDay_valid now hnow k
  have htm : sameDate (prevDay^[k] now) m = true :=
    sameDate_of_rank_eq _ _ htv (hv m hm) hk3
  cases hfind : dates.find? (sameDate (prevDay^[k] now)) with
  | none =>
    rw [List.find?_eq_none] at hfind
    exact absurd htm (hfind m hm)
  | some r =>
    have hr := List.find?_some hfind
    have hrmem := List.mem_of_find?_eq_some hfind
    refine ⟨r, hrmem, ?_, ?_⟩
    · rw [sameDate_iff] at htm hr ⊢
      omega
    · intro fuel hfuel
      apply scanLoop_reach now dates r (k - 1) fuel (-1) zeroTime
      · intro j hj x hx
        rw [AddDate_back]
        by_contra hc
        have hs : sameDate (prevDay^[j + 1] now) x = true := by simpa using hc
        have hrk := rank_eq_of_sameDate _ _ hs
        have h1 := iterate_prevDay_rank_lt now hnow (j + 1) k (by omega)
        have h0 := iterate_prevDay_rank_lt now hnow 0 (j + 1) (by omega)
        simp only [Function.iterate_zero, id_eq] at h0
        have := hmax x hx (by omega)
        omega
      · rw [show (-1 : Int) - ((k - 1 : Nat) : Int) = -1 - ((k - 1 : Nat) : Int) from rfl,
          AddDate_back, show k - 1 + 1 = k by omega]
        exact hfind
      · omega

theorem scanLoop_no_earlier (now : Time) (dates : List Time)
    (hnow : validDate now)
    (hnone : ∀ d ∈ dates, dateRank now ≤ dateRank d) (fuel : Nat) :
    scanLoop now dates fuel (-1) zeroTime = none := by
  apply scanLoop_never
  intro j x hx
  rw [AddDate_back]
  by_contra hc
  have hs : sameDate (prevDay^[j + 1] now) x = true := by simpa using hc
  have hrk := rank_eq_of_sameDate _ _ hs
  have h0 := iterate_prevDay_rank_lt now hnow 0 (j + 1) (by omega)
  simp only [Function.iterate_zero, id_eq] at h0
  have := hnone x hx
  omega

theorem scanLoop_mono (now : Time) (dates : List Time) (r : Time) (fuel : Nat) :
    ∀ (i : Int) (folder : Time) (extra : Nat), scanLoop now dates fuel i folder = some r →
      scanLoop now dates (fuel + extra) i folder = some r := by
  induction fuel with
  | zero => intro i folder extra h; simp [scanLoop] at h
  | succ f ih =>
    intro i folder extra h
    rw [show f + 1 + extra = (f + extra) + 1 by omega]
    unfold scanLoop at h ⊢
    split at h
    · exact h
    · exact ih _ _ extra h

/-! ## Decimal text and the date layout -/

theorem digitChar_digitVal (c : Char) (h : isDigit c = true) : digitChar (digitVal c) = c := by
  unfold isDigit at h
  unfold digitChar digitVal
  have h2 : 48 ≤ c.toNat ∧ c.toNat ≤ 57 := by simpa using h
  rw [show 48 + (c.toNat - 48) = c.toNat by omega]
  exact Char.ofNat_toNat c

theorem digitVal_lt (c : Char) (h : isDigit c = true) : digitVal c < 10 := by
  unfold isDigit at h
  unfold digitVal
  have h2 : 48 ≤ c.toNat ∧ c.toNat ≤ 57 := by simpa using h
  omega

theorem digitsAux_last (f u : Nat) (acc : List Char) (hu : u < 10) :
    digitsAux f u acc = digitChar u :: acc := by
  cases f with
  | zero => rfl
  | succ f => simp [digitsAux]; omega

theorem digitsAux_step (f q r : Nat) (acc : List Char) (hq : 1 ≤ q) (hr : r < 10) :
    digitsAux (f + 1) (10 * q + r) acc = digitsAux f q (digitChar r :: acc) := by
  have h1 : 10 ≤ 10 * q + r := by omega
  have h2 : (10 * q + r) / 10 = q := by omega
  have h3 : (10 * q + r) % 10 = r := by omega
  simp [digitsAux, h1, h2, h3]

theorem appendInt_four (a b c d : Nat) (ha : a < 10) (hb : b < 10) (hc : c < 10) (hd : d < 10) :
    appendInt ((1000 * a + 100 * b + 10 * c + d : Nat) : Int) 4
      = [digitChar a, digitChar b, digitChar c, digitChar d] := by
  unfold appendInt
  rw [if_neg (by omega), Int.natAbs_ofNat]
  by_cases h1 : 1 ≤ a
  · rw [show 1000 * a + 100 * b + 10 * c + d = 10 * (100 * a + 10 * b + c) + d by ring,
      digitsAux_step _ _ _ _ (by omega) hd,
      show 100 * a + 10 * b + c = 10 * (10 * a + b) + c by ring,
      digitsAux_step _ _ _ _ (by omega) hc, digitsAux_step _ _ _ _ h1 hb,
      digitsAux_last _ _ _ ha]
    rfl
  · obtain rfl : a = 0 := by omega
    by_cases h2 : 1 ≤ b
    · rw [show 1000 * 0 + 100 * b + 10 * c + d = 10 * (10 * b + c) + d by ring,
        digitsAux_step _ _ _ _ (by omega) hd, digitsAux_step _ _ _ _ h2 hc,
        digitsAux_last _ _ _ hb]
      rfl
    · obtain rfl : b = 0 := by omega
      by_cases h3 : 1 ≤ c
      · rw [show 1000 * 0 + 100 * 0 + 10 * c + d = 10 * c + d by ring,
          digitsAux_step _ _ _ _ h3 hd, digitsAux_last _ _ _ hc]
        rfl
      · obtain rfl : c = 0 := by omega
        rw [show 1000 * 0 + 100 * 0 + 10 * 0 + d = d by ring, digitsAux_last _ _ _ hd]
        rfl

theorem appendInt_two (a b : Nat) (ha : a < 10) (hb : b < 10) :
    appendInt ((10 * a + b : Nat) : Int) 2 = [digitChar a, digitChar b] := by
  unfold appendInt
  rw [if_neg (by omega), Int.natAbs_ofNat]
  by_cases h1 : 1 ≤ a
  · rw [digitsAux_step _ _ _ _ h1 hb, digitsAux_last _ _ _ ha]
    rfl
  · obtain rfl : a = 0 := by omega
    rw [show 10 * 0 + b = b by ring, digitsAux_last _ _ _ hb]
    rfl

theorem parseDateChars_some (cs : List Char) (t : Time) (h : parseDateChars cs = some t) :
    validDate t ∧ t.hour = 0 ∧ t.min = 0 ∧ t.sec = 0 ∧ t.nsec = 0 ∧ t.offset = 0 ∧ 0 ≤ t.year ∧
      formatDateChars t = cs := by
  unfold parseDateChars at h
  split at h
  · rename_i y1 y2 y3 y4 u1 m1 m2 u2 d1 d2
    split at h
    · rename_i hc
      simp only [Bool.and_eq_true, beq_iff_eq] at hc
      obtain ⟨⟨⟨⟨⟨⟨⟨⟨⟨hy1, hy2⟩, hy3⟩, hy4⟩, hu1⟩, hm1⟩, hm2⟩, hu2⟩, hd1⟩, hd2⟩ := hc
      simp only at h
      split at h
      · cases h
      · split at h
        · cases h
        · rename_i hmonth hday
          injection h with h
          subst h
          refine ⟨⟨by dsimp only; omega, by dsimp only; omega, by dsimp only; omega,
            by dsimp only; omega⟩, rfl, rfl, rfl, rfl, rfl, by dsimp only; omega, ?_⟩
          unfold formatDateChars
          simp only
          rw [appendInt_four _ _ _ _ (digitVal_lt _ hy1) (digitVal_lt _ hy2)
              (digitVal_lt _ hy3) (digitVal_lt _ hy4),
            appendInt_two _ _ (digitVal_lt _ hm1) (digitVal_lt _ hm2),
            appendInt_two _ _ (digitVal_lt _ hd1) (digitVal_lt _ hd2),
            digitChar_digitVal _ hy1, digitChar_digitVal _ hy2, digitChar_digitVal _ hy3,
            digitChar_digitVal _ hy4, digitChar_digitVal _ hm1, digitChar_digitVal _ hm2,
            digitChar_digitVal _ hd1, digitChar_digitVal _ hd2, hu1, hu2]
          rfl
    · cases h
  · cases h

theorem ParseDate_some (name : String) (t : Time) (h : ParseDate name = some t) :
    validDate t ∧ t.hour = 0 ∧ t.min = 0 ∧ t.sec = 0 ∧ t.nsec = 0 ∧ t.offset = 0 ∧ 0 ≤ t.year ∧
      FormatDate t = name := by
  obtain ⟨h1, h2, h3, h4, h5, h6, h7, h8⟩ := parseDateChars_some name.data t h
  refine ⟨h1, h2, h3, h4, h5, h6, h7, ?_⟩
  unfold FormatDate
  rw [h8]

theorem folderDates_spec (folders : List String) (d : Time) (hd : d ∈ folderDates folders) :
    validDate d ∧ d.hour = 0 ∧ d.min = 0 ∧ d.sec = 0 ∧ d.nsec = 0 ∧ d.offset = 0 := by
  unfold folderDates at hd
  rw [List.mem_map] at hd
  obtain ⟨name, _, hname⟩ := hd
  cases hp : ParseDate name with
  | none =>
    rw [hp] at hname
    subst hname
    exact ⟨validDate_zeroTime, rfl, rfl, rfl, rfl, rfl⟩
  | some t =>
    rw [hp] at hname
    subst hname
    obtain ⟨h1, h2, h3, h4, h5, h6, _, _⟩ := ParseDate_some name t hp
    exact ⟨h1, h2, h3, h4, h5, h6⟩

theorem eq_of_sameDate_midnight (a b : Time) (h : sameDate a b = true)
    (ha : a.hour = 0 ∧ a.min = 0 ∧ a.sec = 0 ∧ a.nsec = 0 ∧ a.offset = 0)
    (hb : b.hour = 0 ∧ b.min = 0 ∧ b.sec = 0 ∧ b.nsec = 0 ∧ b.offset = 0) : a = b := by
  rw [sameDate_iff] at h
  cases a; cases b
  simp_all

/-- The scan of `findPreviousDelta` on entry names: when some entry date (the
zero date of a non-date name included) lies before today, enough fuel returns
the layout text of the latest such date. -/
theorem findPreviousDelta_scan (folders : List String) (now m : Time) (hnow : validDate now)
    (hm : m ∈ folderDates folders) (hlt : dateBefore m now)
    (hmax : ∀ d ∈ folderDates folders, dateBefore d now → ¬ dateBefore m d) :
    ∀ fuel : Nat, dateRank now - dateRank m ≤ (fuel : Int) →
      findPreviousDelta folders now fuel = some (FormatDate m) := by
  have hv : ∀ d ∈ folderDates folders, validDate d := fun d hd => (folderDates_spec folders d hd).1
  have hne : folders.length ≠ 0 := by
    intro h0
    have : folders = [] := List.length_eq_zero.mp h0
    subst this
    simp [folderDates] at hm
  obtain ⟨r, hr, hsame, hscan⟩ := scanLoop_latest now (folderDates folders) m hnow hv hm
    ((dateBefore_iff_rank m now (hv m hm) hnow).mp hlt)
    (fun d hd hdn => by
      have h1 := hmax d hd ((dateBefore_iff_rank d now (hv d hd) hnow).mpr hdn)
      rw [dateBefore_iff_rank m d (hv m hm) (hv d hd)] at h1
      omega)
  have hrm : m = r := eq_of_sameDate_midnight m r hsame
    (folderDates_spec folders m hm).2 (folderDates_spec folders r hr).2
  intro fuel hfuel
  unfold findPreviousDelta
  rw [if_neg hne, hscan fuel hfuel, hrm]
  rfl

theorem findPreviousDelta_mono (folders : List String) (now : Time) (r : String)
    (fuel extra : Nat) (h : findPreviousDelta folders now fuel = some r) :
    findPreviousDelta folders now (fuel + extra) = some r := by
  unfold findPreviousDelta at h ⊢
  split
  · rename_i h0; rw [if_pos h0] at h; exact h
  · rename_i h0
    rw [if_neg h0] at h
    cases hs : scanLoop now (folderDates folders) fuel (-1) zeroTime with
    | none => rw [hs] at h; simp at h
    | some d => rw [hs] at h; rw [scanLoop_mono _ _ d fuel _ _ extra hs]; exact h

theorem scanLoop_mono_in (loc : Location) (now : Time) (dates : List Time) (r : Time)
    (fuel : Nat) :
    ∀ (i : Int) (folder : Time) (extra : Nat), scanLoop now dates fuel i folder loc = some r →
      scanLoop now dates (fuel + extra) i folder loc = some r := by
  induction fuel with
  | zero => intro i folder extra h; simp [scanLoop] at h
  | succ f ih =>
    intro i folder extra h
    rw [show f + 1 + extra = (f + extra) + 1 by omega]
    unfold scanLoop at h ⊢
    split at h
    · exact h
    · exact ih _ _ extra h

theorem findPreviousDelta_mono_in (loc : Location) (folders : List String) (now : Time)
    (r : String) (fuel extra : Nat) (h : findPreviousDelta folders now fuel loc = some r) :
    findPreviousDelta folders now (fuel + extra) loc = some r := by
  unfold findPreviousDelta at h ⊢
  split
  · rename_i h0; rw [if_pos h0] at h; exact h
  · rename_i h0
    rw [if_neg h0] at h
    cases hs : scanLoop now (folderDates folders) fuel (-1) zeroTime loc with
    | none => rw [hs] at h; simp at h
    | some d => rw [hs] at h; rw [scanLoop_mono_in loc _ _ d fuel _ _ extra hs]; exact h

/-- Entry names that are all run dates, at least one of them before today:
with enough fuel `findPreviousDelta` returns the entry of the latest date
before today, and entries dated today or later do not count. -/
theorem findPreviousDelta_latest (folders : List String) (now : Time) (hnow : validDate now)
    (best : String) (db : Time) (hbest : best ∈ folders) (hparse : ParseDate best = some db)
    (hlt : dateBefore db now)
    (hzero : (∀ n ∈ folders, ParseDate n ≠ none) ∨ ¬ dateBefore db zeroTime)
    (hmax : ∀ n ∈ folders, ∀ d, ParseDate n = some d → dateBefore d now → ¬ dateBefore db d) :
    ∀ fuel : Nat, dateRank now - dateRank db ≤ (fuel : Int) →
      findPreviousDelta folders now fuel = some best := by
  have hmem : db ∈ folderDates folders := by
    unfold folderDates
    rw [List.mem_map]
    exact ⟨best, hbest, by rw [hparse]; rfl⟩
  have hfmt := (ParseDate_some best db hparse).2.2.2.2.2.2.2
  have key := findPreviousDelta_scan folders now db hnow hmem hlt (by
    intro d hd hdn
    unfold folderDates at hd
    rw [List.mem_map] at hd
    obtain ⟨n, hn, hnd⟩ := hd
    cases hp : ParseDate n with
    | none =>
      rw [hp] at hnd
      rcases hzero with hall | hz
      · exact absurd hp (hall n hn)
      · rw [← hnd]; exact hz
    | some t =>
      rw [hp] at hnd
      have : t = d := hnd
      subst this
      exact hmax n hn t hp hdn)
  intro fuel hfuel
  rw [key fuel hfuel, hfmt]

/-- Entry names none of which is a run date: every entry stands for the zero
date, and from any day after 0001-01-01 the scan ends on that date. -/
theorem findPreviousDelta_no_dates (folders : List String) (now : Time) (hnow : validDate now)
    (hne : folders ≠ []) (hbad : ∀ n ∈ folders, ParseDate n = none)
    (hlt : dateBefore zeroTime now) :
    ∀ fuel : Nat, dateRank now - dateRank zeroTime ≤ (fuel : Int) →
      findPreviousDelta folders now fuel = some "0001_01_01" := by
  have hall : ∀ d ∈ folderDates folders, d = zeroTime := by
    intro d hd
    unfold folderDates at hd
    rw [List.mem_map] at hd
    obtain ⟨n, hn, hnd⟩ := hd
    rw [hbad n hn] at hnd
    exact hnd.symm
  have hmem : zeroTime ∈ folderDates folders := by
    cases folders with
    | nil => exact absurd rfl hne
    | cons n rest =>
      unfold folderDates
      rw [List.map_cons, hbad n (List.mem_cons_self n rest)]
      exact List.mem_cons_self _ _
  have key := findPreviousDelta_scan folders now zeroTime hnow hmem hlt (by
    intro d hd _
    rw [hall d hd]
    decide)
  intro fuel hfuel
  rw [key fuel hfuel]
  rfl

/-- Entry dates none of which lies before today: the scan never sets
`breakout`, whatever the number of rounds. -/
theorem findPreviousDelta_diverges (folders : List String) (now : Time) (hnow : validDate now)
    (hne : folders ≠ [])
    (hnone : ∀ d ∈ folderDates folders, ¬ dateBefore d now) (fuel : Nat) :
    findPreviousDelta folders now fuel = none := by
  have hlen : folders.length ≠ 0 := fun h0 => hne (List.length_eq_zero.mp h0)
  unfold findPreviousDelta
  rw [if_neg hlen, scanLoop_no_earlier now (folderDates folders) hnow (by
    intro d hd
    have hv := (folderDates_spec folders d hd).1
    have := hnone d hd
    rw [dateBefore_iff_rank d now hv hnow] at this
    omega) fuel]
  rfl

/-- The example of the specification: folders 2024_01_01 and 2024_01_03 on
2024-01-05 resolve to 2024_01_03 after two rounds of the scan. -/
theorem findPreviousDelta_example :
    findPreviousDelta ["2024_01_01", "2024_01_03"] ⟨2024, 1, 5, 10, 30, 0, 0, 0⟩ 2
      = some "2024_01_03" := by decide

/-! ## Claims on delta resolution -/

/-- C1 (fails on the code): in America/Sao_Paulo, at 00:30 on 2018-11-06,
with the run folders 2018_11_01 and 2018_11_04, the latest run date before
today is 2018-11-04.  The reading 00:30 does not exist on that day, the scan
sees 2018-11-03 in its place, never compares with 2018-11-04, and
`findPreviousDelta` returns 2018_11_01, for five rounds and for any more. -/
theorem C1_midnight_gap_skips_latest_folder :
    ParseDate "2018_11_04" = some ⟨2018, 11, 4, 0, 0, 0, 0, 0⟩ ∧
    dateBefore ⟨2018, 11, 4, 0, 0, 0, 0, 0⟩ ⟨2018, 11, 6, 0, 30, 0, 0, -7200⟩ ∧
    sameDate (AddDate ⟨2018, 11, 6, 0, 30, 0, 0, -7200⟩ (-2) saoPaulo2018)
      ⟨2018, 11, 3, 0, 0, 0, 0, 0⟩ = true ∧
    ∀ extra, findPreviousDelta ["2018_11_01", "2018_11_04"]
        ⟨2018, 11, 6, 0, 30, 0, 0, -7200⟩ (5 + extra) saoPaulo2018 = some "2018_11_01" := by
  refine ⟨by decide, by decide, by decide, ?_⟩
  intro extra
  exact findPreviousDelta_mono_in saoPaulo2018 _ _ _ 5 extra (by decide)

/-- C2: on an empty list of entries (an empty or unreadable directory)
`findPreviousDelta` returns the empty string for every date and every fuel,
zero fuel included: no round of the backward scan is entered. -/
theorem C2_empty_folder_set (now : Time) (fuel : Nat) :
    findPreviousDelta [] now fuel = some "" ∧ findPreviousDelta [] now 0 = some "" :=
  ⟨rfl, rfl⟩

/-- C3 (fails on the code): with the single entry test_123 on 2024-01-05,
`findPreviousDelta` never returns the empty string and, given enough rounds,
returns 0001_01_01. -/
theorem C3_non_date_entry_yields_delta :
    findPreviousDelta ["test_123"] ⟨2024, 1, 5, 9, 0, 0, 0, 0⟩ 1000000 = some "0001_01_01" ∧
    ∀ fuel, findPreviousDelta ["test_123"] ⟨2024, 1, 5, 9, 0, 0, 0, 0⟩ fuel ≠ some "" := by
  have h := findPreviousDelta_no_dates ["test_123"] ⟨2024, 1, 5, 9, 0, 0, 0, 0⟩
    (by decide) (by decide) (by decide) (by decide) 1000000 (by decide)
  refine ⟨h, ?_⟩
  intro fuel hf
  have h1 := findPreviousDelta_mono _ _ _ fuel 1000000 hf
  have h2 := findPreviousDelta_no_dates ["test_123"] ⟨2024, 1, 5, 9, 0, 0, 0, 0⟩
    (by decide) (by decide) (by decide) (by decide) (fuel + 1000000) (by
      have : dateRank ⟨2024, 1, 5, 9, 0, 0, 0, 0⟩ - dateRank zeroTime ≤ ((1000000 : Nat) : Int) := by
        decide
      push_cast at this ⊢
      omega)
  rw [h1] at h2
  exact absurd h2 (by decide)

/-- C4 (fails on the code): when the only entry is today's run folder, as on
a second invocation on 2024-01-05, the backward scan has not ended after any
number of rounds (in the calendar of unbounded years; the integers of the
machine wrap only after some 2e14 rounds). -/
theorem C4_scan_does_not_terminate (fuel : Nat) :
    findPreviousDelta ["2024_01_05"] ⟨2024, 1, 5, 9, 0, 0, 0, 0⟩ fuel = none :=
  findPreviousDelta_diverges ["2024_01_05"] ⟨2024, 1, 5, 9, 0, 0, 0, 0⟩ (by decide) (by decide)
    (by decide) fuel

/-! ## The classifier loops -/

theorem type2Loop_eq (upper : String → String) (name : String) (l : List String)
    (flag : Bool) :
    type2Loop upper name l flag = (flag || decide (upper name ∈ l)) := by
  induction l generalizing flag with
  | nil => simp [type2Loop]
  | cons e rest ih =>
    unfold type2Loop
    by_cases h : upper name = e
    · rw [if_pos h, ih]; simp [h]
    · rw [if_neg h, ih]; simp [h]

theorem markTimestamp_type2 (upper : String → String) (config : Config) (table : Table) :
    (markTimestamp upper config table).type2 = table.type2 := by
  unfold markTimestamp
  split <;> rfl

theorem timestampEntryLoop_eq (upper : String → String) (columnName : String)
    (l : List String) (current : String) :
    timestampEntryLoop upper columnName l current
      = if upper columnName ∈ l then upper columnName else current := by
  induction l generalizing current with
  | nil => simp [timestampEntryLoop]
  | cons e rest ih =>
    unfold timestampEntryLoop
    by_cases h : upper columnName = e
    · rw [if_pos h, ih]; simp [h]
    · rw [if_neg h, ih]
      have : (upper columnName ∈ e :: rest) ↔ upper columnName ∈ rest := by
        simp [h]
      simp only [this]

theorem timestampColumnLoop_eq (upper : String → String) (timestamps : List String)
    (columns : List Column) (current : String) :
    timestampColumnLoop upper timestamps columns current
      = (((columns.filter (fun c => decide (upper c.name ∈ timestamps))).getLast?).map
          (fun c => upper c.name)).getD current := by
  induction columns generalizing current with
  | nil => simp [timestampColumnLoop]
  | cons c rest ih =>
    unfold timestampColumnLoop
    rw [ih, timestampEntryLoop_eq]
    by_cases h : upper c.name ∈ timestamps
    · rw [if_pos h, List.filter_cons_of_pos (by simpa using h), List.getLast?_cons]
      cases (List.filter (fun c => decide (upper c.name ∈ timestamps)) rest).getLast? <;> rfl
    · rw [if_neg h, List.filter_cons_of_neg (by simpa using h)]

theorem lastMatchingColumn_upper (upper : String → String) (timestamps : List String)
    (columns : List Column) (hupper : ∀ e ∈ timestamps, upper e = e) :
    lastMatchingColumn upper timestamps columns
      = (columns.filter (fun c => decide (upper c.name ∈ timestamps))).getLast? := by
  unfold lastMatchingColumn
  congr 1
  apply List.filter_congr
  intro c _
  apply decide_eq_decide.mpr
  unfold equalFold
  constructor
  · rintro ⟨e, he, heq⟩
    rw [heq, hupper e he]; exact he
  · intro h
    exact ⟨upper c.name, h, (hupper _ h).symm⟩

/-! ## The projection loop -/

theorem columnListLoop_go (rest : List Column) (index : Nat) (columnList : String) :
    columnListLoop rest (index + 1) columnList
      = String.intercalate.go columnList "," (rest.map columnTerm) := by
  induction rest generalizing index columnList with
  | nil => simp [columnListLoop, String.intercalate.go]
  | cons c rest ih =>
    unfold columnListLoop
    rw [if_neg (by omega), ih, List.map_cons, String.intercalate.go, String.append_assoc]

theorem columnListLoop_eq (columns : List Column) :
    columnListLoop columns 0 "" = String.intercalate "," (columns.map columnTerm) := by
  cases columns with
  | nil => simp [columnListLoop, String.intercalate]
  | cons c rest =>
    unfold columnListLoop
    rw [if_pos rfl, columnListLoop_go, List.map_cons, String.intercalate, String.empty_append]

/-! ## The worker -/

theorem getTableData_flow_cons (table : Table) (errs : ExportErrors)
    (rest : List (Table × ExportErrors)) :
    (getTableData ((table, errs) :: rest)).2
      = match exportTable errs with
        | Flow.exit => Flow.exit
        | Flow.next => (getTableData rest).2 := by
  cases h : exportTable errs with
  | exit => simp [getTableData, h]
  | next => simp [getTableData, h]

/-- A worker that receives a table whose query or file creation fails ends
the process, wherever that table stands in what it receives. -/
theorem getTableData_exit (received : List (Table × ExportErrors))
    (h : ∃ p ∈ received, p.2.queryErr = true ∨ p.2.createErr = true) :
    (getTableData received).2 = Flow.exit := by
  induction received with
  | nil => simp at h
  | cons p rest ih =>
    obtain ⟨table, errs⟩ := p
    rw [getTableData_flow_cons]
    cases hx : exportTable errs with
    | exit => rfl
    | next =>
      obtain ⟨q, hq, herr⟩ := h
      rcases List.mem_cons.mp hq with rfl | hrest
      · unfold exportTable at hx
        rcases herr with he | he
        · simp at he; simp [he] at hx
        · simp at he; simp [he] at hx
      · exact ih ⟨q, hrest, herr⟩

/-- A run in which some worker receives a table whose query or file creation
fails never prints the elapsed time. -/
theorem reachesReport_false (workers : List (List (Table × ExportErrors)))
    (h : ∃ received ∈ workers, ∃ p ∈ received, p.2.queryErr = true ∨ p.2.createErr = true) :
    reachesReport workers = false := by
  obtain ⟨received, hw, hp⟩ := h
  unfold reachesReport
  rw [List.all_eq_false]
  exact ⟨received, hw, by simp [getTableData_exit received hp]⟩

/-! ## Claims on dispatch, classification and the row streamer -/

theorem dispatch_where (deltaMap : DeltaMap) (table sent : Table)
    (h : dispatch deltaMap table = some sent) :
    sent.«where» = if ((deltaMap.get table.name).IsZero || table.type2) = true then ""
      else FormatRFC3339 (deltaMap.get table.name) := by
  unfold dispatch at h
  split at h
  · simp only at h
    split at h
    · rename_i hc
      rw [if_pos hc]
      cases h; rfl
    · rename_i hc
      rw [if_neg hc]
      cases h; rfl
  · cases h

theorem IsZero_zeroTime : zeroTime.IsZero = true := by decide

/-- C5 as stated fails: the map holds a record under the name of a table that
has a delta column and is not full-reload, yet the filter value is not the
RFC-3339 text of the recorded time, because the recorded time is the zero
time. -/
theorem C5_zero_record_counterexample :
    ¬ ∀ (deltaMap : DeltaMap) (table sent : Table) (t : Time),
        dispatch deltaMap table = some sent → deltaMap.lookup table.name = some t →
        table.type2 = false → table.timestamp ≠ "" → sent.«where» = FormatRFC3339 t := by
  intro h
  have h1 := h [("T", zeroTime)] ⟨"T", 1, "", "", "MODIFIED", false, []⟩
    ⟨"T", 1, "", "", "MODIFIED", false, []⟩ zeroTime (by decide) (by decide) rfl (by decide)
  exact absurd h1 (by decide)

/-- C5 (amended): for every dispatched table and every delta map, the filter
value is empty when the table is full-reload, when no record stands under
its name, or when the recorded time is the zero instant; for a table that has
a delta column and is not full-reload it is the RFC-3339 text of a recorded
time that is not the zero instant, offset included.  Nothing is said of a
table without a delta column under whose name a record stands. -/
theorem C5_filterValue (deltaMap : DeltaMap) (table sent : Table)
    (h : dispatch deltaMap table = some sent) :
    (table.type2 = true → sent.«where» = "") ∧
    (deltaMap.lookup table.name = none → sent.«where» = "") ∧
    (∀ t, deltaMap.lookup table.name = some t → t.IsZero = true → sent.«where» = "") ∧
    (∀ t, deltaMap.lookup table.name = some t → t.IsZero = false → table.type2 = false →
      table.timestamp ≠ "" → sent.«where» = FormatRFC3339 t) := by
  have hw := dispatch_where deltaMap table sent h
  refine ⟨?_, ?_, ?_, ?_⟩
  · intro ht
    rw [hw, ht, Bool.or_true, if_pos rfl]
  · intro hl
    have hg : deltaMap.get table.name = zeroTime := by rw [DeltaMap.get, hl]; rfl
    rw [hw, hg, IsZero_zeroTime, Bool.true_or, if_pos rfl]
  · intro t hl hz
    have hg : deltaMap.get table.name = t := by rw [DeltaMap.get, hl]; rfl
    rw [hw, hg, hz, Bool.true_or, if_pos rfl]
  · intro t hl hz ht _
    have hg : deltaMap.get table.name = t := by rw [DeltaMap.get, hl]; rfl
    rw [hw, hg, hz, ht, Bool.or_false, if_neg (by decide)]

/-- C5 witness: table ORDERS with a record of 2024-01-03 08:15:30 at five
hours east of UTC. -/
theorem C5_filterValue_witness :
    dispatch [("ORDERS", ⟨2024, 1, 3, 8, 15, 30, 0, 18000⟩)]
        ⟨"ORDERS", 7, "tables", "", "MODIFIED", false, [⟨"id", "int"⟩]⟩
      = some ⟨"ORDERS", 7, "tables", "2024-01-03T08:15:30+05:00", "MODIFIED", false,
          [⟨"id", "int"⟩]⟩ ∧
    (("2024-01-03T08:15:30+05:00" : String)
      = FormatRFC3339 ⟨2024, 1, 3, 8, 15, 30, 0, 18000⟩) :=
  ⟨by decide,
    (C5_filterValue [("ORDERS", ⟨2024, 1, 3, 8, 15, 30, 0, 18000⟩)]
      ⟨"ORDERS", 7, "tables", "", "MODIFIED", false, [⟨"id", "int"⟩]⟩
      ⟨"ORDERS", 7, "tables", "2024-01-03T08:15:30+05:00", "MODIFIED", false, [⟨"id", "int"⟩]⟩
      (by decide)).2.2.2 ⟨2024, 1, 3, 8, 15, 30, 0, 18000⟩ (by decide) (by decide) rfl
      (by decide)⟩

/-- C6 (fails on the code): table T has no delta column and is not
full-reload, the map holds a record under T, and the table is sent with a
non-empty filter value; its query has a WHERE clause with an empty column. -/
theorem C6_filter_without_deltaColumn :
    dispatch [("T", ⟨2024, 1, 1, 0, 0, 0, 0, 0⟩)] ⟨"T", 5, "tables", "", "", false, [⟨"id", "int"⟩]⟩
      = some ⟨"T", 5, "tables", "2024-01-01T00:00:00Z", "", false, [⟨"id", "int"⟩]⟩ ∧
    queryString ⟨"T", 5, "tables", "2024-01-01T00:00:00Z", "", false, [⟨"id", "int"⟩]⟩
      = "SELECT [id] FROM [T] WHERE  >= '2024-01-01T00:00:00Z'" := by
  decide

/-- C7 as stated fails: the entry dim equals the table name dim
case-insensitively, yet the table is not marked, because only the table name
is upper-cased. -/
theorem C7_lowercase_entry_counterexample :
    (∃ e ∈ ["dim"], equalFold ToUpperASCII e "dim") ∧
    (markTimestamp ToUpperASCII ⟨["dim"], []⟩
      (markType2 ToUpperASCII ⟨["dim"], []⟩ (loadTable "dim" [] 0 ""))).type2 = false := by
  decide

/-- C7 (amended): whatever function `strings.ToUpper` is, the classifier
marks a table full-reload exactly when some entry of the type-2 set equals
the upper-cased table name. -/
theorem C7_type2_iff (upper : String → String) (config : Config) (name : String)
    (rows : List Column) (count : Int) (base : String) :
    (markTimestamp upper config (markType2 upper config (loadTable name rows count base))).type2
        = true
      ↔ ∃ e ∈ config.Type2, e = upper name := by
  rw [markTimestamp_type2]
  unfold markType2
  simp only [loadTable, getTableMetadata]
  rw [type2Loop_eq]
  simp

/-- C8 as stated fails: the set MODIFIED is written in upper case, the table
is not full-reload, its only column modified is the last column matching an
entry, and the delta column becomes MODIFIED, not the column name. -/
theorem C8_column_name_counterexample :
    (∀ e ∈ ["MODIFIED"], ToUpperASCII e = e) ∧
    (markType2 ToUpperASCII ⟨[], ["MODIFIED"]⟩
      (loadTable "T" [⟨"modified", "datetime"⟩] 0 "")).type2 = false ∧
    lastMatchingColumn ToUpperASCII ["MODIFIED"] [⟨"modified", "datetime"⟩]
      = some ⟨"modified", "datetime"⟩ ∧
    (markTimestamp ToUpperASCII ⟨[], ["MODIFIED"]⟩
      (markType2 ToUpperASCII ⟨[], ["MODIFIED"]⟩
        (loadTable "T" [⟨"modified", "datetime"⟩] 0 ""))).timestamp = "MODIFIED" := by
  decide

/-- C8 (amended): whatever function `strings.ToUpper` is, for a
delta-eligible set written in upper case (every entry is its own upper-cased
form), a table marked full-reload keeps an empty delta column, and a table
not marked full-reload receives the upper-cased name of the last column whose
name equals an entry case-insensitively, or the empty string when none does. -/
theorem C8_deltaColumn (upper : String → String) (config : Config) (name : String)
    (rows : List Column) (count : Int) (base : String)
    (hupper : ∀ e ∈ config.Timestamps, upper e = e) :
    ((markType2 upper config (loadTable name rows count base)).type2 = true →
      (markTimestamp upper config
        (markType2 upper config (loadTable name rows count base))).timestamp = "") ∧
    ((markType2 upper config (loadTable name rows count base)).type2 = false →
      (markTimestamp upper config
        (markType2 upper config (loadTable name rows count base))).timestamp
        = match lastMatchingColumn upper config.Timestamps rows with
          | some c => upper c.name
          | none => "") := by
  constructor
  · intro h
    unfold markTimestamp
    rw [h]
    rfl
  · intro h
    unfold markTimestamp
    rw [h, lastMatchingColumn_upper _ _ _ hupper]
    simp only [Bool.not_false, if_true]
    show timestampColumnLoop upper config.Timestamps rows "" = _
    rw [timestampColumnLoop_eq]
    cases (List.filter (fun c => decide (upper c.name ∈ config.Timestamps)) rows).getLast?
      <;> rfl

/-- C8 witness: two columns match and the later one, updated, wins. -/
theorem C8_deltaColumn_witness :
    (∀ e ∈ ["CREATED", "UPDATED"], ToUpperASCII e = e) ∧
    (markTimestamp ToUpperASCII ⟨["DIM"], ["CREATED", "UPDATED"]⟩
      (markType2 ToUpperASCII ⟨["DIM"], ["CREATED", "UPDATED"]⟩
        (loadTable "fact" [⟨"id", "int"⟩, ⟨"created", "datetime"⟩, ⟨"Updated", "datetime"⟩,
          ⟨"note", "text"⟩] 3 "run/"))).timestamp = "UPDATED" := by
  refine ⟨by decide, ?_⟩
  have h := (C8_deltaColumn ToUpperASCII ⟨["DIM"], ["CREATED", "UPDATED"]⟩ "fact"
    [⟨"id", "int"⟩, ⟨"created", "datetime"⟩, ⟨"Updated", "datetime"⟩, ⟨"note", "text"⟩] 3 "run/"
    (by decide)).2 (by decide)
  rw [h]
  decide

/-- C9: the query text is SELECT, the projection, FROM and the bracketed
table name, then the filter; the projection is the comma-separated list of
one term per column in order, the bracketed column name or, for an image
column, the placeholder literal under that name; the filter is empty when
the filter value is empty and the inclusive lower bound on the delta column
otherwise. -/
theorem C9_queryString (table : Table) :
    queryString table
      = "SELECT "
        ++ String.intercalate "," (table.columns.map (fun column =>
            if column.dataType = "image" then "'\x7bimg\x7d' as [" ++ column.name ++ "]"
            else "[" ++ column.name ++ "]"))
        ++ " FROM [" ++ table.name ++ "] "
        ++ (if table.«where» = "" then ""
            else "WHERE " ++ table.timestamp ++ " >= '" ++ table.«where» ++ "'") := by
  unfold queryString whereClause
  rw [columnListLoop_eq]
  have hterm : (fun column : Column =>
      if column.dataType = "image" then "'\x7bimg\x7d' as [" ++ column.name ++ "]"
      else "[" ++ column.name ++ "]") = columnTerm := rfl
  rw [hterm]
  by_cases hw : table.«where» = ""
  · simp [hw]
  · simp [hw]

/-- C10 (fails on the code): worker 1 receives T1, whose query fails, and
T2; worker 2 receives T3.  Worker 1 ends the process on T1, so the run never
reaches the elapsed-time report, although T3 alone exports without error. -/
theorem C10_export_error_ends_process :
    getTableData [(⟨"T1", 1, "tables", "", "", false, []⟩, ⟨false, true, false, false, []⟩),
        (⟨"T2", 1, "tables", "", "", false, []⟩, ⟨false, false, false, false, []⟩)]
      = ([], Flow.exit) ∧
    getTableData [(⟨"T3", 1, "tables", "", "", false, []⟩, ⟨false, false, false, false, []⟩)]
      = (["T3"], Flow.next) ∧
    reachesReport
      [[(⟨"T1", 1, "tables", "", "", false, []⟩, ⟨false, true, false, false, []⟩),
        (⟨"T2", 1, "tables", "", "", false, []⟩, ⟨false, false, false, false, []⟩)],
       [(⟨"T3", 1, "tables", "", "", false, []⟩, ⟨false, false, false, false, []⟩)]] = false := by
  decide

/-! ## The manifest loader -/

/-- A manifest in which some read returns fewer than three fields, as every
read with a nil record does, makes the loader panic, whatever stands before
and after it. -/
theorem loadDeltaMap_panics (reads : List ReadResult) (state : DeltaMap × Nat)
    (h : ∃ r ∈ reads, r.row.length < 3) : loadDeltaMap reads state = none := by
  induction reads generalizing state with
  | nil => simp at h
  | cons read rest ih =>
    obtain ⟨deltaMap, logged⟩ := state
    unfold loadDeltaMap
    obtain ⟨r, hr, hlen⟩ := h
    match hrow : read.row with
    | [] => rfl
    | [_] => rfl
    | [_, _] => rfl
    | name :: column :: field2 :: more =>
      simp only
      apply ih
      rcases List.mem_cons.mp hr with rfl | hrest
      · rw [hrow] at hlen
        simp only [List.length_cons] at hlen
        omega
      · exact ⟨r, hrest, hlen⟩

/-- A manifest in which every read returns at least three fields is loaded
to the end. -/
theorem loadDeltaMap_total (reads : List ReadResult) (state : DeltaMap × Nat)
    (h : ∀ r ∈ reads, 3 ≤ r.row.length) : ∃ final, loadDeltaMap reads state = some final := by
  induction reads generalizing state with
  | nil => exact ⟨state, rfl⟩
  | cons read rest ih =>
    obtain ⟨deltaMap, logged⟩ := state
    unfold loadDeltaMap
    have hlen := h read (List.mem_cons_self _ _)
    match hrow : read.row with
    | [] => rw [hrow] at hlen; simp at hlen
    | [_] => rw [hrow] at hlen; simp at hlen
    | [_, _] => rw [hrow] at hlen; simp at hlen
    | name :: column :: field2 :: more =>
      simp only
      exact ih _ (fun r hr => h r (List.mem_cons_of_mem _ hr))

/-! ## The row loop of the type switch -/

theorem isDigit_digitChar (d : Nat) (h : d < 10) : isDigit (digitChar d) = true := by
  interval_cases d <;> rfl

theorem digitVal_digitChar (d : Nat) (h : d < 10) : digitVal (digitChar d) = d := by
  interval_cases d <;> rfl

theorem atoi4_digits (a b c d : Nat) (rest : List Char)
    (ha : a < 10) (hb : b < 10) (hc : c < 10) (hd : d < 10) :
    atoi4 (digitChar a :: digitChar b :: digitChar c :: digitChar d :: rest)
      = some (1000 * a + 100 * b + 10 * c + d, rest) := by
  simp only [atoi4, isDigit_digitChar, digitVal_digitChar, ha, hb, hc, hd, Bool.and_self,
    if_true]

theorem getnum_digits (x y : Nat) (rest : List Char) (fixed : Bool)
    (hx : x < 10) (hy : y < 10) :
    getnum (digitChar x :: digitChar y :: rest) fixed = some (10 * x + y, rest) := by
  simp only [getnum, isDigit_digitChar, digitVal_digitChar, hx, hy, if_true]

theorem skip_cons (c : Char) (rest : List Char) : skip c (c :: rest) = some rest := by
  simp [skip]

theorem parseRFC3339Chars_digits (a b c d m1 m2 d1 d2 h1 h2 n1 n2 s1 s2 : Nat)
    (zoneChars : List Char) (offset : Int)
    (ha : a < 10) (hb : b < 10) (hc : c < 10) (hd : d < 10)
    (hm1 : m1 < 10) (hm2 : m2 < 10) (hd1 : d1 < 10) (hd2 : d2 < 10)
    (hh1 : h1 < 10) (hh2 : h2 < 10) (hn1 : n1 < 10) (hn2 : n2 < 10)
    (hs1 : s1 < 10) (hs2 : s2 < 10)
    (hmonth : ¬ (10 * m1 + m2 < 1 ∨ 12 < 10 * m1 + m2))
    (hday : ¬ (10 * d1 + d2 < 1 ∨
      daysIn (10 * m1 + m2) ((1000 * a + 100 * b + 10 * c + d : Nat) : Int) < 10 * d1 + d2))
    (hhour : ¬ 24 ≤ 10 * h1 + h2) (hmin : ¬ 60 ≤ 10 * n1 + n2) (hsec : ¬ 60 ≤ 10 * s1 + s2)
    (hfrac : parseFraction zoneChars = (0, zoneChars))
    (hzone : parseZone zoneChars = some (offset, [])) :
    parseRFC3339Chars (digitChar a :: digitChar b :: digitChar c :: digitChar d :: '-' ::
        digitChar m1 :: digitChar m2 :: '-' :: digitChar d1 :: digitChar d2 :: 'T' ::
        digitChar h1 :: digitChar h2 :: ':' :: digitChar n1 :: digitChar n2 :: ':' ::
        digitChar s1 :: digitChar s2 :: zoneChars)
      = some ⟨((1000 * a + 100 * b + 10 * c + d : Nat) : Int), 10 * m1 + m2, 10 * d1 + d2,
          10 * h1 + h2, 10 * n1 + n2, 10 * s1 + s2, 0, offset⟩ := by
  have e1 : ∀ rest, atoi4 (digitChar a :: digitChar b :: digitChar c :: digitChar d :: rest)
      = some (1000 * a + 100 * b + 10 * c + d, rest) := fun rest =>
    atoi4_digits a b c d rest ha hb hc hd
  unfold parseRFC3339Chars
  rw [e1]
  simp only [Option.some_bind, skip_cons]
  rw [getnum_digits m1 m2 _ true hm1 hm2]
  simp only [Option.some_bind, if_neg hmonth, skip_cons]
  rw [getnum_digits d1 d2 _ true hd1 hd2]
  simp only [Option.some_bind, skip_cons]
  rw [getnum_digits h1 h2 _ false hh1 hh2]
  simp only [Option.some_bind, if_neg hhour, skip_cons]
  rw [getnum_digits n1 n2 _ true hn1 hn2]
  simp only [Option.some_bind, if_neg hmin, skip_cons]
  rw [getnum_digits s1 s2 _ true hs1 hs2]
  simp only [Option.some_bind, if_neg hsec, hfrac, hzone, ne_eq, not_true_eq_false, if_false,
    if_neg hday]

theorem appendInt_two_nat (n : Nat) (h : n < 100) :
    appendInt ((n : Nat) : Int) 2 = [digitChar (n / 10), digitChar (n % 10)] := by
  have h1 := appendInt_two (n / 10) (n % 10) (by omega) (by omega)
  rwa [show 10 * (n / 10) + n % 10 = n by omega] at h1

theorem appendInt_four_nat (n : Nat) (h : n < 10000) :
    appendInt ((n : Nat) : Int) 4
      = [digitChar (n / 1000), digitChar (n / 100 % 10), digitChar (n / 10 % 10),
          digitChar (n % 10)] := by
  have h1 := appendInt_four (n / 1000) (n / 100 % 10) (n / 10 % 10) (n % 10)
    (by omega) (by omega) (by omega) (by omega)
  rwa [show 1000 * (n / 1000) + 100 * (n / 100 % 10) + 10 * (n / 10 % 10) + n % 10 = n by
    omega] at h1

theorem parseZone_signed (c : Char) (k : Nat) (hk : k ≤ 1499) (hc : c = '+' ∨ c = '-') :
    parseFraction (c :: digitChar (k / 60 / 10) :: digitChar (k / 60 % 10) :: ':' ::
        digitChar (k % 60 / 10) :: [digitChar (k % 60 % 10)])
      = (0, c :: digitChar (k / 60 / 10) :: digitChar (k / 60 % 10) :: ':' ::
        digitChar (k % 60 / 10) :: [digitChar (k % 60 % 10)]) ∧
    parseZone (c :: digitChar (k / 60 / 10) :: digitChar (k / 60 % 10) :: ':' ::
        digitChar (k % 60 / 10) :: [digitChar (k % 60 % 10)])
      = some (if c = '-' then -((k * 60 : Nat) : Int) else ((k * 60 : Nat) : Int), []) := by
  have hnz : c ≠ 'Z' := by rcases hc with rfl | rfl <;> decide
  have hnp : ¬ (c = '.' ∨ c = ',') := by rcases hc with rfl | rfl <;> decide
  have d1 := isDigit_digitChar (k / 60 / 10) (by omega)
  have d2 := isDigit_digitChar (k / 60 % 10) (by omega)
  have d3 := isDigit_digitChar (k % 60 / 10) (by omega)
  have d4 := isDigit_digitChar (k % 60 % 10) (by omega)
  have v1 := digitVal_digitChar (k / 60 / 10) (by omega)
  have v2 := digitVal_digitChar (k / 60 % 10) (by omega)
  have v3 := digitVal_digitChar (k % 60 / 10) (by omega)
  have v4 := digitVal_digitChar (k % 60 % 10) (by omega)
  constructor
  · simp only [parseFraction, hnp, false_and, if_false]
  · have hsec : ((10 * (k / 60 / 10) + k / 60 % 10) * 60 + (10 * (k % 60 / 10) + k % 60 % 10)) * 60
        = k * 60 := by omega
    simp only [parseZone, if_neg hnz, d1, d2, d3, d4, v1, v2, v3, v4, hsec]
    rw [if_pos ⟨trivial, rfl, hc, by omega, by omega⟩]

/-- The zone field of an offset of whole minutes, at most 24 hours and 59
minutes either way, reads back as that offset. -/
theorem formatZone_parse (offset : Int) (hmin : offset % 60 = 0)
    (hb : offset.natAbs ≤ 89940) :
    parseFraction (formatZone offset) = (0, formatZone offset) ∧
    parseZone (formatZone offset) = some (offset, []) := by
  by_cases h0 : offset = 0
  · subst h0
    exact ⟨rfl, rfl⟩
  · obtain ⟨j, rfl⟩ : ∃ j, offset = 60 * j := ⟨offset / 60, by omega⟩
    have hj : j ≠ 0 := by intro h; apply h0; rw [h]; rfl
    have hjk : j.natAbs ≤ 1499 := by omega
    unfold formatZone
    rw [if_neg h0, Int.mul_tdiv_cancel_left j (by decide)]
    simp only
    rw [appendInt_two_nat (j.natAbs / 60) (by omega), appendInt_two_nat (j.natAbs % 60) (by omega)]
    by_cases hneg : j < 0
    · rw [if_pos hneg]
      simp only [List.cons_append, List.nil_append]
      have h := parseZone_signed '-' j.natAbs hjk (Or.inr rfl)
      refine ⟨h.1, ?_⟩
      rw [h.2, if_pos rfl]
      congr 2
      omega
    · rw [if_neg hneg]
      simp only [List.cons_append, List.nil_append]
      have h := parseZone_signed '+' j.natAbs hjk (Or.inl rfl)
      refine ⟨h.1, ?_⟩
      rw [h.2, if_neg (by decide)]
      congr 2
      omega

/-- Reading back the RFC 3339 text of a valid reading with a four-digit year
and an offset of whole minutes gives the reading without its nanoseconds. -/
theorem ParseRFC3339_FormatRFC3339 (t : Time) (hv : validDate t) (hy0 : 0 ≤ t.year)
    (hy : t.year ≤ 9999) (hh : t.hour < 24) (hm : t.min < 60) (hs : t.sec < 60)
    (hmin : t.offset % 60 = 0) (hoff : t.offset.natAbs ≤ 89940) :
    ParseRFC3339 (FormatRFC3339 t) = some { t with nsec := 0 } := by
  obtain ⟨year, month, day, hour, min, sec, nsec, offset⟩ := t
  obtain ⟨v1, v2, v3, v4⟩ := hv
  simp only at hy0 hy hh hm hs v1 v2 v3 v4 hmin hoff
  have hb := daysIn_bounds month year v1 v2
  obtain ⟨hz1, hz2⟩ := formatZone_parse offset hmin hoff
  lift year to Nat using hy0
  have hy2 : year < 10000 := by omega
  unfold ParseRFC3339 FormatRFC3339
  simp only
  rw [appendInt_four_nat year hy2, appendInt_two_nat month (by omega),
    appendInt_two_nat day (by omega), appendInt_two_nat hour (by omega),
    appendInt_two_nat min (by omega), appendInt_two_nat sec (by omega)]
  simp only [List.cons_append, List.nil_append]
  have ey : 1000 * (year / 1000) + 100 * (year / 100 % 10) + 10 * (year / 10 % 10) + year % 10
      = year := by omega
  have em : 10 * (month / 10) + month % 10 = month := by omega
  have ed : 10 * (day / 10) + day % 10 = day := by omega
  rw [parseRFC3339Chars_digits (year / 1000) (year / 100 % 10) (year / 10 % 10) (year % 10)
    (month / 10) (month % 10) (day / 10) (day % 10) (hour / 10) (hour % 10)
    (min / 10) (min % 10) (sec / 10) (sec % 10) (formatZone offset) offset
    (by omega) (by omega) (by omega) (by omega) (by omega) (by omega) (by omega) (by omega)
    (by omega) (by omega) (by omega) (by omega) (by omega) (by omega)
    (by omega) (by rw [ey, em, ed]; omega) (by omega) (by omega) (by omega) hz1 hz2]
  rw [ey, em, ed, show 10 * (hour / 10) + hour % 10 = hour by omega,
    show 10 * (min / 10) + min % 10 = min by omega,
    show 10 * (sec / 10) + sec % 10 = sec by omega]

/-! ## The text of a float -/

/-- C11 (fails on the code): a manifest whose second record the CSV reader
cannot parse (nil record, non-nil error), or whose second record has two
fields, makes the loader panic on `row[2]`, so the well-formed record after it
is never read; the same manifest without the bad record loads, the header
leaving the zero time under TABLE_NAME. -/
theorem C11_bad_row_aborts_loading :
    loadDeltaMap [⟨deltaHeader, false⟩, ⟨[], true⟩,
        ⟨["ORDERS", "MODIFIED", "2024-01-03T08:15:30Z", "7"], false⟩] ([], 0) = none ∧
    loadDeltaMap [⟨deltaHeader, false⟩, ⟨["ITEMS", "MODIFIED"], true⟩,
        ⟨["ORDERS", "MODIFIED", "2024-01-03T08:15:30Z", "7"], false⟩] ([], 0) = none ∧
    loadDeltaMap [⟨deltaHeader, false⟩,
        ⟨["ORDERS", "MODIFIED", "2024-01-03T08:15:30Z", "7"], false⟩] ([], 0)
      = some ([("ORDERS", ⟨2024, 1, 3, 8, 15, 30, 0, 0⟩), ("TABLE_NAME", zeroTime)], 0) := by
  decide

/-- C12 as stated fails: a maximum of 2024-01-03 08:15:30.5 is written
without the half second and loads back as 08:15:30; a maximum in the year
10000 or in the year -1 is written with a year field the loader cannot read
and loads back as the zero time; an offset of 3208 seconds is written as
+00:53 and loads back as 3180 seconds; an offset of 25 hours is written as
+25:00, which the loader cannot read. -/
theorem C12_round_trip_counterexample :
    loadDeltaMap [⟨deltaRow ⟨"ORDERS", 7, "tables", "", "MODIFIED", false, []⟩
        ⟨2024, 1, 3, 8, 15, 30, 500000000, 0⟩, false⟩] ([], 0)
      = some ([("ORDERS", ⟨2024, 1, 3, 8, 15, 30, 0, 0⟩)], 0) ∧
    loadDeltaMap [⟨deltaRow ⟨"ORDERS", 7, "tables", "", "MODIFIED", false, []⟩
        ⟨10000, 1, 1, 0, 0, 0, 0, 0⟩, false⟩] ([], 0)
      = some ([("ORDERS", zeroTime)], 0) ∧
    loadDeltaMap [⟨deltaRow ⟨"ORDERS", 7, "tables", "", "MODIFIED", false, []⟩
        ⟨-1, 1, 1, 0, 0, 0, 0, 0⟩, false⟩] ([], 0)
      = some ([("ORDERS", zeroTime)], 0) ∧
    loadDeltaMap [⟨deltaRow ⟨"ORDERS", 7, "tables", "", "MODIFIED", false, []⟩
        ⟨2024, 1, 3, 8, 15, 30, 0, 3208⟩, false⟩] ([], 0)
      = some ([("ORDERS", ⟨2024, 1, 3, 8, 15, 30, 0, 3180⟩)], 0) ∧
    loadDeltaMap [⟨deltaRow ⟨"ORDERS", 7, "tables", "", "MODIFIED", false, []⟩
        ⟨2024, 1, 3, 8, 15, 30, 0, 90000⟩, false⟩] ([], 0)
      = some ([("ORDERS", zeroTime)], 0) := by
  refine ⟨by decide, by decide, by decide, by decide, by decide⟩

/-- C12 (amended): for every table and every valid maximum with a year from
0 to 9999 and an offset of whole minutes of at most 24 hours 59 minutes,
when the CSV reader returns the record that `writeDeltas` wrote with its
fields as written, the loader of the next run stores under the table name
the maximum cut to whole seconds, offset kept, and this is what the next run
looks up; it is the maximum itself when that has no sub-second part.  The
delta column and the row count are written and never read back. -/
theorem C12_manifest_round_trip (table : Table) (timestamp : Time) (err : Bool)
    (hv : validDate timestamp) (hy0 : 0 ≤ timestamp.year) (hy : timestamp.year ≤ 9999)
    (hh : timestamp.hour < 24) (hm : timestamp.min < 60) (hs : timestamp.sec < 60)
    (hmin : timestamp.offset % 60 = 0) (hoff : timestamp.offset.natAbs ≤ 89940) :
    (∀ (deltaMap : DeltaMap) (logged : Nat),
      loadDeltaMap [⟨deltaRow table timestamp, err⟩] (deltaMap, logged)
        = some ((table.name, { timestamp with nsec := 0 }) :: deltaMap,
            if err then logged + 1 else logged)) ∧
    (∀ (deltaMap : DeltaMap),
      DeltaMap.get ((table.name, { timestamp with nsec := 0 }) :: deltaMap) table.name
        = { timestamp with nsec := 0 }) ∧
    (timestamp.nsec = 0 → ({ timestamp with nsec := 0 } : Time) = timestamp) := by
  have hp := ParseRFC3339_FormatRFC3339 timestamp hv hy0 hy hh hm hs hmin hoff
  refine ⟨?_, ?_, ?_⟩
  · intro deltaMap logged
    simp only [loadDeltaMap, deltaRow, hp, Option.getD_some]
  · intro deltaMap
    simp [DeltaMap.get, List.lookup]
  · intro hn
    obtain ⟨year, month, day, hour, min, sec, nsec, offset⟩ := timestamp
    simp only at hn
    subst hn
    rfl

/-- C12 witness: table ORDERS with the maximum 2024-01-03 08:15:30 at two
hours west of UTC. -/
theorem C12_manifest_round_trip_witness :
    validDate ⟨2024, 1, 3, 8, 15, 30, 0, -7200⟩ ∧
    loadDeltaMap [⟨deltaRow ⟨"ORDERS", 7, "tables", "", "MODIFIED", false, []⟩
        ⟨2024, 1, 3, 8, 15, 30, 0, -7200⟩, false⟩] ([], 0)
      = some ([("ORDERS", ⟨2024, 1, 3, 8, 15, 30, 0, -7200⟩)], 0) :=
  ⟨by decide,
    (C12_manifest_round_trip ⟨"ORDERS", 7, "tables", "", "MODIFIED", false, []⟩
      ⟨2024, 1, 3, 8, 15, 30, 0, -7200⟩ false (by decide) (by decide) (by decide) (by decide)
      (by decide) (by decide) (by decide) (by decide)).1 [] 0⟩

end Metagetter
